import Mathlib

/-!
# Verification of the provenance core

A shallow embedding of the provenance recording system: the SHA-256 hasher
and hash-chain verifier (`src/core/hasher.js`), the session recorder
(`src/core/recorder.js`), the document format, validation and statistics
(`src/core/format.js`), and the replay reconstruction algorithm
(the replay module's `applyEvent` / `seekToEvent`).

JavaScript strings are modelled as `List Char` (UTF-16-free scalar
sequences); machine integers are `Nat` / `Int` with explicit wrapping where
it matters; the ambient clock (`Date.now()`, `toISOString`,
`new Date(s).getTime()`) is passed in as explicit parameters; fallible code
returns `Option` / `Except`. SHA-256 itself is implemented executably over
`Nat`, so every concrete statement below evaluates in the kernel.
-/

/-- Character sequences model JavaScript strings. -/
abbrev Str := List Char

/-! ## SHA-256 (`sha256` in `src/core/hasher.js`)

The source calls `crypto.subtle.digest` on the UTF-8 bytes and hex-encodes
the result.  The digest is implemented here directly, on lists of byte
values, with all word arithmetic reduced modulo `2^32`. -/

/-- Truncate to a 32-bit word. -/
def w32 (n : Nat) : Nat := n % 4294967296

/-- Right rotation of a 32-bit word. -/
def rotr (n x : Nat) : Nat := (x >>> n) ||| (w32 (x <<< (32 - n)))

/-- SHA-256 round constants. -/
def shaK : List Nat :=
  [1116352408, 1899447441, 3049323471, 3921009573, 961987163, 1508970993,
   2453635748, 2870763221, 3624381080, 310598401, 607225278, 1426881987,
   1925078388, 2162078206, 2614888103, 3248222580, 3835390401, 4022224774,
   264347078, 604807628, 770255983, 1249150122, 1555081692, 1996064986,
   2554220882, 2821834349, 2952996808, 3210313671, 3336571891, 3584528711,
   113926993, 338241895, 666307205, 773529912, 1294757372, 1396182291,
   1695183700, 1986661051, 2177026350, 2456956037, 2730485921, 2820302411,
   3259730800, 3345764771, 3516065817, 3600352804, 4094571909, 275423344,
   430227734, 506948616, 659060556, 883997877, 958139571, 1322822218,
   1537002063, 1747873779, 1955562222, 2024104815, 2227730452, 2361852424,
   2428436474, 2756734187, 3204031479, 3329325298]

/-- SHA-256 initial hash state. -/
def shaInit : List Nat :=
  [1779033703, 3144134277, 1013904242, 2773480762,
   1359893119, 2600822924, 528734635, 1541459225]

/-- Big-endian byte decomposition of `n` into `k` bytes. -/
def bytesBE (k n : Nat) : List Nat :=
  (List.range k).map (fun i => (n >>> (8 * (k - 1 - i))) % 256)

/-- SHA-256 message padding: append `0x80`, zeros, and the 64-bit bit length. -/
def shaPad (msg : List Nat) : List Nat :=
  let len := msg.length
  let zeros := (119 - (len % 64)) % 64
  msg ++ [0x80] ++ List.replicate zeros 0 ++ bytesBE 8 (8 * len)

/-- Split a byte list into 64-byte chunks (fuel-driven structural recursion;
the fuel is instantiated with the list length). -/
def chunks64 : Nat → List Nat → List (List Nat)
  | 0, _ => []
  | _ + 1, [] => []
  | fuel + 1, l => l.take 64 :: chunks64 fuel (l.drop 64)

/-- Combine big-endian groups of 4 bytes into 32-bit words. -/
def toWords : Nat → List Nat → List Nat
  | 0, _ => []
  | _ + 1, [] => []
  | fuel + 1, b0 :: b1 :: b2 :: b3 :: rest =>
      ((b0 <<< 24) + (b1 <<< 16) + (b2 <<< 8) + b3) :: toWords fuel rest
  | _ + 1, _ => []

/-- Extend the 16 message-schedule words to 64. -/
def shaExtend (a : Array Nat) : Array Nat :=
  (List.range 48).foldl
    (fun a _ =>
      let n := a.size
      let x15 := a.getD (n - 15) 0
      let x2 := a.getD (n - 2) 0
      let s0 := (rotr 7 x15) ^^^ (rotr 18 x15) ^^^ (x15 >>> 3)
      let s1 := (rotr 17 x2) ^^^ (rotr 19 x2) ^^^ (x2 >>> 10)
      a.push (w32 (a.getD (n - 16) 0 + s0 + a.getD (n - 7) 0 + s1)))
    a

/-- One SHA-256 compression round. -/
def shaRound (st : List Nat) (kw : Nat × Nat) : List Nat :=
  match st with
  | [a, b, c, d, e, f, g, h] =>
      let s1 := (rotr 6 e) ^^^ (rotr 11 e) ^^^ (rotr 25 e)
      let ch := (e &&& f) ^^^ ((e ^^^ 0xffffffff) &&& g)
      let t1 := w32 (h + s1 + ch + kw.1 + kw.2)
      let s0 := (rotr 2 a) ^^^ (rotr 13 a) ^^^ (rotr 22 a)
      let mj := (a &&& b) ^^^ (a &&& c) ^^^ (b &&& c)
      let t2 := w32 (s0 + mj)
      [w32 (t1 + t2), a, b, c, w32 (d + t1), e, f, g]
  | _ => st

/-- Process one 64-byte block. -/
def shaBlock (hs : List Nat) (block : List Nat) : List Nat :=
  let ws := shaExtend (toWords 16 block).toArray
  let st := (shaK.zip ws.toList).foldl (fun st kw => shaRound st (kw.1, kw.2)) hs
  (hs.zip st).map (fun p => w32 (p.1 + p.2))

/-- SHA-256 of a byte list, as the 32 output bytes. -/
def sha256Bytes (msg : List Nat) : List Nat :=
  let padded := shaPad msg
  let hs := (chunks64 (padded.length) padded).foldl shaBlock shaInit
  hs.foldr (fun w acc => bytesBE 4 w ++ acc) []

/-- UTF-8 encoding of one character (scalar value), as `TextEncoder` does. -/
def utf8Char (n : Nat) : List Nat :=
  if n < 0x80 then [n]
  else if n < 0x800 then [0xc0 + n / 64, 0x80 + n % 64]
  else if n < 0x10000 then [0xe0 + n / 4096, 0x80 + (n / 64) % 64, 0x80 + n % 64]
  else [0xf0 + n / 262144, 0x80 + (n / 4096) % 64, 0x80 + (n / 64) % 64, 0x80 + n % 64]

/-- UTF-8 encoding of a string. -/
def utf8Encode (s : Str) : List Nat :=
  (s.map (fun c => utf8Char c.toNat)).flatten

/-- Lowercase hex digit. -/
def hexDigit (n : Nat) : Char :=
  if n < 10 then Char.ofNat (48 + n) else Char.ofNat (87 + n)

/-- Two lowercase hex digits of a byte (`b.toString(16).padStart(2, 0)`). -/
def byteHex (b : Nat) : List Char := [hexDigit (b / 16), hexDigit (b % 16)]

/-- Model of `sha256(data)` from `src/core/hasher.js`: SHA-256 of the UTF-8
bytes of `data`, rendered as lowercase hex. -/
def sha256 (data : Str) : Str :=
  ((sha256Bytes (utf8Encode data)).map byteHex).flatten

/-! ## Events and the chained event digest -/

/-- One recorded editing action, as built by `src/core/recorder.js`.
`position` and `content` are `null` on session markers, hence `Option`.
The `hash` field is set after `computeEventHash`; events under construction
carry a placeholder. -/
structure Event where
  type : Str
  timestamp : Nat
  position : Option Nat
  content : Option Str
  hash : Str
deriving Repr, DecidableEq

/-- The closed set of event type tags (`EventType` in `recorder.js`). -/
def EventType.INSERT : Str := "insert".toList

/-- `delete` tag. -/
def EventType.DELETE : Str := "delete".toList

/-- `paste` tag. -/
def EventType.PASTE : Str := "paste".toList

/-- `session_start` tag. -/
def EventType.SESSION_START : Str := "session_start".toList

/-- `session_end` tag. -/
def EventType.SESSION_END : Str := "session_end".toList

/-- JSON string escaping of one character, as `JSON.stringify` performs it. -/
def jsonEscapeChar (c : Char) : Str :=
  if c = '"' then ['\\', '"']
  else if c = '\\' then ['\\', '\\']
  else if c = '\x08' then ['\\', 'b']
  else if c = '\x09' then ['\\', 't']
  else if c = '\x0a' then ['\\', 'n']
  else if c = '\x0c' then ['\\', 'f']
  else if c = '\x0d' then ['\\', 'r']
  else if c.toNat < 32 then '\\' :: 'u' :: '0' :: '0' :: byteHex c.toNat
  else [c]

/-- A JSON string literal: quotes around the escaped body. -/
def jsonString (s : Str) : Str :=
  '"' :: (s.map jsonEscapeChar).flatten ++ ['"']

/-- Decimal digits of a natural number, accumulator/fuel form. -/
def natDecAux : Nat → Nat → Str → Str
  | 0, n, acc => hexDigit (n % 10) :: acc
  | fuel + 1, n, acc =>
      if n < 10 then hexDigit n :: acc
      else natDecAux fuel (n / 10) (hexDigit (n % 10) :: acc)

/-- Decimal rendering of a natural number (how `JSON.stringify` prints the
integer timestamps and positions appearing in events). -/
def natDec (n : Nat) : Str := natDecAux n n []

/-- JSON rendering of a nullable number. -/
def jsonOptNat : Option Nat → Str
  | none => "null".toList
  | some n => natDec n

/-- JSON rendering of a nullable string. -/
def jsonOptStr : Option Str → Str
  | none => "null".toList
  | some s => jsonString s

/-- The canonical string `JSON.stringify` produces inside `computeEventHash`:
the fields `type`, `timestamp`, `position`, `content`, `previousHash`, in
that fixed key order, with no whitespace. -/
def eventData (event : Event) (previousHash : Str) : Str :=
  '\x7b' :: (jsonString "type".toList ++ ':' :: jsonString event.type
    ++ ',' :: jsonString "timestamp".toList ++ ':' :: natDec event.timestamp
    ++ ',' :: jsonString "position".toList ++ ':' :: jsonOptNat event.position
    ++ ',' :: jsonString "content".toList ++ ':' :: jsonOptStr event.content
    ++ ',' :: jsonString "previousHash".toList ++ ':' :: jsonString previousHash
    ++ ['\x7d'])

/-- `computeEventHash(event, previousHash)` from `src/core/hasher.js`:
digest of the canonical event encoding.  Only the four payload fields and
the previous hash enter; the event's own `hash` field does not. -/
def computeEventHash (event : Event) (previousHash : Str) : Str :=
  sha256 (eventData event previousHash)

/-! ## Hash-chain verification -/

/-- Result shape of `verifyHashChain`. -/
structure VerifyResult where
  valid : Bool
  brokenAt : Option Nat
  message : Str
  lastHash : Str
deriving Repr, DecidableEq

/-- The failure message interpolated at a broken link. -/
def brokenMessage (i : Nat) (event : Event) : Str :=
  "Hash chain broken at event ".toList ++ natDec i
    ++ " (type: ".toList ++ event.type
    ++ ", timestamp: ".toList ++ natDec event.timestamp ++ ")".toList

/-- The single verification pass of `verifyHashChain`: recompute each link
from the running previous hash and stop at the first mismatch. -/
def verifyLoop : List Event → Str → Nat → VerifyResult
  | [], prev, _ =>
      { valid := true, brokenAt := none,
        message := "Hash chain verified successfully".toList, lastHash := prev }
  | e :: rest, prev, i =>
      if e.hash = computeEventHash e prev then verifyLoop rest e.hash (i + 1)
      else
        { valid := false, brokenAt := some i,
          message := brokenMessage i e, lastHash := prev }

/-- `verifyHashChain(events, startingHash)` from `src/core/hasher.js`.
The `events` argument is optional because the source accepts `null` /
`undefined` (`!events`) as well as an empty array. -/
def verifyHashChain (events : Option (List Event)) (startingHash : Str) : VerifyResult :=
  match events with
  | none =>
      { valid := true, brokenAt := none,
        message := "No events to verify".toList, lastHash := startingHash }
  | some [] =>
      { valid := true, brokenAt := none,
        message := "No events to verify".toList, lastHash := startingHash }
  | some l => verifyLoop l startingHash 0

/-- One recording interval as stored in a document. -/
structure Session where
  id : Str
  startTime : Str
  endTime : Str
  baseContent : Str
  events : List Event
deriving Repr, DecidableEq

/-- Per-session entry of `verifyProvenanceFile`'s `results` array: the
session id spread together with that session's `VerifyResult`. -/
structure SessionResult where
  sessionId : Str
  valid : Bool
  brokenAt : Option Nat
  message : Str
  lastHash : Str
deriving Repr, DecidableEq

/-- Result shape of `verifyProvenanceFile`. -/
structure FileVerifyResult where
  valid : Bool
  results : List SessionResult
deriving Repr, DecidableEq

/-- The loop body of `verifyProvenanceFile`: verify every session's chain
independently, each restarting from the empty previous hash, collecting one
result per session and conjoining validity. -/
def verifySessions : List Session → FileVerifyResult
  | [] => { valid := true, results := [] }
  | s :: rest =>
      let r := verifyHashChain (some s.events) []
      let tail := verifySessions rest
      { valid := r.valid && tail.valid,
        results := { sessionId := s.id, valid := r.valid, brokenAt := r.brokenAt,
                     message := r.message, lastHash := r.lastHash } :: tail.results }

/-! ## The recorder (`src/core/recorder.js`)

The closure returned by `createRecorder` owns four mutable variables; they
form the state record below.  `Date.now()` readings are supplied as the
explicit `now` argument of each operation. -/

/-- The mutable state captured by the `createRecorder` closure. -/
structure RecorderState where
  events : List Event
  lastHash : Str
  isRecording : Bool
  sessionStartTime : Option Nat
deriving Repr, DecidableEq

/-- `createRecorder()`: fresh state — no events, empty last hash, inactive. -/
def createRecorder : RecorderState :=
  { events := [], lastHash := [], isRecording := false, sessionStartTime := none }

/-- `startSession()`: activate, stamp the start time, append a chained
`session_start` event, and return the start timestamp. -/
def startSession (s : RecorderState) (now : Nat) : RecorderState × Nat :=
  let e : Event :=
    { type := EventType.SESSION_START, timestamp := now, position := none,
      content := none, hash := [] }
  let h := computeEventHash e s.lastHash
  ({ events := s.events ++ [{ e with hash := h }], lastHash := h,
     isRecording := true, sessionStartTime := some now }, now)

/-- `endSession()`: no-op returning `null` when inactive; otherwise append a
chained `session_end` event, deactivate, and return the end timestamp. -/
def endSession (s : RecorderState) (now : Nat) : RecorderState × Option Nat :=
  if s.isRecording then
    let e : Event :=
      { type := EventType.SESSION_END, timestamp := now, position := none,
        content := none, hash := [] }
    let h := computeEventHash e s.lastHash
    ({ s with
        events := s.events ++ [{ e with hash := h }],
        lastHash := h,
        isRecording := false }, some now)
  else (s, none)

/-- `recordInsert(position, content)`: no-op returning `null` when inactive;
otherwise append a chained `insert` event and return it. -/
def recordInsert (s : RecorderState) (now : Nat) (position : Nat) (content : Str) :
    RecorderState × Option Event :=
  if s.isRecording then
    let e : Event :=
      { type := EventType.INSERT, timestamp := now, position := some position,
        content := some content, hash := [] }
    let ev := { e with hash := computeEventHash e s.lastHash }
    ({ s with events := s.events ++ [ev], lastHash := ev.hash }, some ev)
  else (s, none)

/-- `recordDelete(position, content)`: identical chaining mechanics, `delete` tag. -/
def recordDelete (s : RecorderState) (now : Nat) (position : Nat) (content : Str) :
    RecorderState × Option Event :=
  if s.isRecording then
    let e : Event :=
      { type := EventType.DELETE, timestamp := now, position := some position,
        content := some content, hash := [] }
    let ev := { e with hash := computeEventHash e s.lastHash }
    ({ s with events := s.events ++ [ev], lastHash := ev.hash }, some ev)
  else (s, none)

/-- `recordPaste(position, content)`: identical chaining mechanics, `paste` tag. -/
def recordPaste (s : RecorderState) (now : Nat) (position : Nat) (content : Str) :
    RecorderState × Option Event :=
  if s.isRecording then
    let e : Event :=
      { type := EventType.PASTE, timestamp := now, position := some position,
        content := some content, hash := [] }
    let ev := { e with hash := computeEventHash e s.lastHash }
    ({ s with events := s.events ++ [ev], lastHash := ev.hash }, some ev)
  else (s, none)

/-- `getEvents()`: the accumulated sequence (the source returns a defensive
copy; copies are identities on immutable lists). -/
def getEvents (s : RecorderState) : List Event := s.events

/-- One call into the recorder after the session start, for stating
trace properties: the three record operations and `endSession`. -/
inductive RecOp where
  | insert (now position : Nat) (content : Str)
  | delete (now position : Nat) (content : Str)
  | paste (now position : Nat) (content : Str)
  | finish (now : Nat)
deriving Repr

/-- Apply one recorder call to the state, discarding the return value. -/
def applyRecOp (s : RecorderState) : RecOp → RecorderState
  | .insert now p c => (recordInsert s now p c).1
  | .delete now p c => (recordDelete s now p c).1
  | .paste now p c => (recordPaste s now p c).1
  | .finish now => (endSession s now).1

/-- Run a sequence of recorder calls in order. -/
def runRecOps (s : RecorderState) (ops : List RecOp) : RecorderState :=
  ops.foldl applyRecOp s

/-- The adjacent-link property of a hash chain: each event's stored hash is
the chained digest of its own payload with the preceding event's stored
hash (`prev` for the first event). -/
def chainedFrom : Str → List Event → Bool
  | _, [] => true
  | prev, e :: rest => decide (e.hash = computeEventHash e prev) && chainedFrom e.hash rest

/-- The stored hash of the last event of a chain, or the starting hash for
an empty chain. -/
def lastHashOf : Str → List Event → Str
  | prev, [] => prev
  | _, e :: rest => lastHashOf e.hash rest

/-! ## The document format (`src/core/format.js`) -/

/-- The `metadata` object of a provenance document. -/
structure Metadata where
  title : Str
  createdAt : Str
  lastModifiedAt : Str
  editorVersion : Str
deriving Repr, DecidableEq

/-- A provenance document.  `metadata` and `sessions` are `Option` because
`parse` / `validate` must observe their absence; string fields model the
JavaScript convention that the empty string is falsy. -/
structure Document where
  version : Str
  metadata : Option Metadata
  sessions : Option (List Session)
  finalContent : Str
  contentHash : Str
deriving Repr, DecidableEq

/-- `FORMAT_VERSION` constant. -/
def FORMAT_VERSION : Str := "1.0.0".toList

/-- `createProvenanceDocument(title)`; the two `new Date().toISOString()`
readings are supplied as `nowIso`. -/
def createProvenanceDocument (nowIso : Str) (title : Str) : Document :=
  { version := FORMAT_VERSION,
    metadata := some
      { title := title, createdAt := nowIso, lastModifiedAt := nowIso,
        editorVersion := FORMAT_VERSION },
    sessions := some [],
    finalContent := [],
    contentHash := [] }

/-- `addSession(document, sessionId, startTime, endTime, events, baseContent)`:
push a freshly built session onto `document.sessions` and refresh
`metadata.lastModifiedAt`.  `dateToISO` models `new Date(t).toISOString()`
and `nowIso` the current clock reading; the result is `none` when
`sessions` or `metadata` is absent (the source would throw there). -/
def addSession (dateToISO : Nat → Str) (nowIso : Str) (doc : Document)
    (sessionId : Str) (startTime endTime : Nat) (events : List Event)
    (baseContent : Str) : Option Document :=
  match doc.sessions, doc.metadata with
  | some ss, some m =>
      some { doc with
        sessions := some (ss ++
          [{ id := sessionId, startTime := dateToISO startTime,
             endTime := dateToISO endTime, baseContent := baseContent,
             events := events }]),
        metadata := some { m with lastModifiedAt := nowIso } }
  | _, _ => none

/-- `finalizeDocument(document, finalContent)`: stamp the content and its
digest, refresh `lastModifiedAt` (`none` when `metadata` is absent). -/
def finalizeDocument (nowIso : Str) (doc : Document) (finalContent : Str) :
    Option Document :=
  match doc.metadata with
  | some m =>
      some { doc with
        finalContent := finalContent,
        contentHash := sha256 finalContent,
        metadata := some { m with lastModifiedAt := nowIso } }
  | none => none

/-- `verifyProvenanceFile(provenanceData)`: verify every session's chain
independently; `none` models the `TypeError` thrown when `sessions` is
absent. -/
def verifyProvenanceFile (provenanceData : Document) : Option FileVerifyResult :=
  match provenanceData.sessions with
  | none => none
  | some ss => some (verifySessions ss)

/-- Result shape of `validate`. -/
structure ValidateResult where
  valid : Bool
  errors : List Str
deriving Repr, DecidableEq

/-- The final-content-hash-mismatch error text of `validate`. -/
def hashMismatchMsg : Str :=
  "Final content hash mismatch - content may have been tampered with".toList

/-- `validate(document)`: collect structural errors, per-session chain
errors, and the final-content digest comparison.  The digest comparison
only runs when `finalContent` and `contentHash` are both truthy, exactly as
in the source; a document without a `sessions` array makes the source throw
(`for … of undefined`), modelled as `Except.error`. -/
def validate (doc : Document) : Except Str ValidateResult :=
  let errs1 := if doc.version = [] then ["Missing version field".toList] else []
  let errs2 :=
    match doc.metadata with
    | none => ["Missing metadata".toList]
    | some m =>
        (if m.createdAt = [] then ["Missing createdAt".toList] else [])
          ++ (if m.lastModifiedAt = [] then ["Missing lastModifiedAt".toList] else [])
  let errs3 :=
    match doc.sessions with
    | none => ["Missing or invalid sessions array".toList]
    | some _ => []
  match doc.sessions with
  | none => .error "TypeError: document.sessions is not iterable".toList
  | some ss =>
      let hv := verifySessions ss
      let errs4 :=
        if hv.valid then []
        else (hv.results.filter (fun r => !r.valid)).map
          (fun r => "Session ".toList ++ r.sessionId ++ ": ".toList ++ r.message)
      let errs5 :=
        if doc.finalContent ≠ [] ∧ doc.contentHash ≠ [] then
          if sha256 doc.finalContent ≠ doc.contentHash then [hashMismatchMsg] else []
        else []
      let errors := errs1 ++ errs2 ++ errs3 ++ errs4 ++ errs5
      .ok { valid := errors.isEmpty, errors := errors }

/-! ## Statistics (`getStatistics` in `src/core/format.js`) -/

/-- The running accumulator of the single pass over all events. -/
structure StatAcc where
  te : Nat
  ie : Nat
  de : Nat
  pe : Nat
  ct : Nat
  cd : Nat
  cp : Nat
deriving Repr, DecidableEq

/-- The loop body: bump `totalEvents` for every event, then the per-type
counters and character totals for the three edit types (session markers
fall through the `switch`). -/
def statEvent (a : StatAcc) (e : Event) : StatAcc :=
  let a := { a with te := a.te + 1 }
  if e.type = EventType.INSERT then
    { a with ie := a.ie + 1, ct := a.ct + (e.content.getD []).length }
  else if e.type = EventType.DELETE then
    { a with de := a.de + 1, cd := a.cd + (e.content.getD []).length }
  else if e.type = EventType.PASTE then
    { a with pe := a.pe + 1, cp := a.cp + (e.content.getD []).length }
  else a

/-- Decimal rendering of an integer. -/
def intDec (n : Int) : Str :=
  if n < 0 then '-' :: natDec (-n).toNat else natDec n.toNat

/-- `formatDuration(ms)`: human-readable duration.  JavaScript `Math.floor`
on the division is integer floor division; `%` is truncating remainder. -/
def formatDuration (ms : Int) : Str :=
  let seconds := Int.fdiv ms 1000
  let minutes := Int.fdiv seconds 60
  let hours := Int.fdiv minutes 60
  if hours > 0 then
    intDec hours ++ "h ".toList ++ intDec (Int.tmod minutes 60) ++ "m".toList
  else if minutes > 0 then
    intDec minutes ++ "m ".toList ++ intDec (Int.tmod seconds 60) ++ "s".toList
  else intDec seconds ++ "s".toList

/-- The statistics record returned by `getStatistics`.  `pasteRatio` is the
exact rational value of the JavaScript division. -/
structure Stats where
  sessionCount : Nat
  totalEvents : Nat
  insertEvents : Nat
  deleteEvents : Nat
  pasteEvents : Nat
  totalCharsTyped : Nat
  totalCharsDeleted : Nat
  totalCharsPasted : Nat
  totalWritingTimeMs : Int
  totalWritingTimeFormatted : Str
  pasteRatio : Rat
  finalContentLength : Nat
deriving Repr, DecidableEq

/-- `getStatistics(document)`: one pass over all sessions and events, then
the time-span sum over sessions with truthy `startTime` and `endTime`.
`parseTime` models `new Date(s).getTime()`; a document without a `sessions`
array makes the source throw, modelled as `none`. -/
def getStatistics (parseTime : Str → Int) (doc : Document) : Option Stats :=
  match doc.sessions with
  | none => none
  | some ss =>
      let f := ss.foldl (fun a s => s.events.foldl statEvent a)
        { te := 0, ie := 0, de := 0, pe := 0, ct := 0, cd := 0, cp := 0 }
      let t := ss.foldl
        (fun t s =>
          if s.startTime ≠ [] ∧ s.endTime ≠ [] then
            t + (parseTime s.endTime - parseTime s.startTime)
          else t) (0 : Int)
      some
        { sessionCount := ss.length, totalEvents := f.te, insertEvents := f.ie,
          deleteEvents := f.de, pasteEvents := f.pe, totalCharsTyped := f.ct,
          totalCharsDeleted := f.cd, totalCharsPasted := f.cp,
          totalWritingTimeMs := t, totalWritingTimeFormatted := formatDuration t,
          pasteRatio := if f.te > 0 then (f.pe : Rat) / (f.te : Rat) else 0,
          finalContentLength := doc.finalContent.length }

/-! ## Serialization (`serialize` / `parse` in `src/core/format.js`)

`JSON.stringify` / `JSON.parse` form a lossless inverse pair on this
fragment of JSON (plain objects, arrays, strings, integer numbers, null),
so the text layer is modelled by a JSON value tree: `serialize` produces
the document's JSON value, and `parse` performs the required-field checks
the source runs on the value `JSON.parse` returns. -/

/-- JSON values as stored in a provenance file. -/
inductive Json where
  | null
  | str (s : Str)
  | num (n : Nat)
  | arr (elems : List Json)
  | obj (fields : List (Str × Json))
deriving Repr

/-- Property lookup on a JSON object (first binding wins). -/
def jsLookup : List (Str × Json) → Str → Option Json
  | [], _ => none
  | (k, v) :: rest, key => if k = key then some v else jsLookup rest key

/-- JavaScript truthiness of a property-access result: `undefined`, `null`,
the empty string and `0` are falsy; every object and array is truthy. -/
def jsTruthy : Option Json → Bool
  | none => false
  | some .null => false
  | some (.str s) => !s.isEmpty
  | some (.num n) => n != 0
  | some (.arr _) => true
  | some (.obj _) => true

/-- JSON value of an event, key order as the recorder builds the object. -/
def eventToJson (e : Event) : Json :=
  .obj [("type".toList, .str e.type),
        ("timestamp".toList, .num e.timestamp),
        ("position".toList, match e.position with | none => .null | some n => .num n),
        ("content".toList, match e.content with | none => .null | some s => .str s),
        ("hash".toList, .str e.hash)]

/-- JSON value of a session, key order as `addSession` builds the object. -/
def sessionToJson (s : Session) : Json :=
  .obj [("id".toList, .str s.id),
        ("startTime".toList, .str s.startTime),
        ("endTime".toList, .str s.endTime),
        ("baseContent".toList, .str s.baseContent),
        ("events".toList, .arr (s.events.map eventToJson))]

/-- JSON value of the metadata object. -/
def metadataToJson (m : Metadata) : Json :=
  .obj [("title".toList, .str m.title),
        ("createdAt".toList, .str m.createdAt),
        ("lastModifiedAt".toList, .str m.lastModifiedAt),
        ("editorVersion".toList, .str m.editorVersion)]

/-- `serialize(document)`: the JSON value `JSON.stringify` encodes.  Absent
(`undefined`) properties are omitted, as `JSON.stringify` omits them. -/
def serialize (doc : Document) : Json :=
  .obj ([("version".toList, .str doc.version)]
    ++ (match doc.metadata with
        | none => []
        | some m => [("metadata".toList, metadataToJson m)])
    ++ (match doc.sessions with
        | none => []
        | some ss => [("sessions".toList, .arr (ss.map sessionToJson))])
    ++ [("finalContent".toList, .str doc.finalContent),
        ("contentHash".toList, .str doc.contentHash)])

/-- `parse(jsonString)` after `JSON.parse` succeeded: throw a `FormatError`
unless `version`, `metadata` and `sessions` are all truthy on the parsed
value; return the parsed value itself otherwise.  Property access on a
non-object yields `undefined` (falsy), on `null` it throws. -/
def parse (j : Json) : Except Str Json :=
  match j with
  | .obj fields =>
      if jsTruthy (jsLookup fields "version".toList)
          && jsTruthy (jsLookup fields "metadata".toList)
          && jsTruthy (jsLookup fields "sessions".toList)
      then .ok j
      else .error "Invalid provenance file format".toList
  | .null => .error "TypeError: cannot read properties of null".toList
  | _ => .error "Invalid provenance file format".toList

/-- The required-field condition `parse` actually enforces, as a predicate:
the parsed value is an object whose `version`, `metadata` and `sessions`
properties are all truthy. -/
def requiredFieldsTruthy : Json → Bool
  | .obj fields =>
      jsTruthy (jsLookup fields "version".toList)
        && jsTruthy (jsLookup fields "metadata".toList)
        && jsTruthy (jsLookup fields "sessions".toList)
  | _ => false

/-- Partial inverse of `eventToJson`, for stating losslessness. -/
def eventOfJson (j : Json) : Option Event :=
  match j with
  | .obj f =>
      match jsLookup f "type".toList, jsLookup f "timestamp".toList,
          jsLookup f "position".toList, jsLookup f "content".toList,
          jsLookup f "hash".toList with
      | some (.str t), some (.num ts), some pj, some cj, some (.str h) =>
          match pj, cj with
          | .null, .null => some { type := t, timestamp := ts, position := none, content := none, hash := h }
          | .null, .str c => some { type := t, timestamp := ts, position := none, content := some c, hash := h }
          | .num p, .null => some { type := t, timestamp := ts, position := some p, content := none, hash := h }
          | .num p, .str c => some { type := t, timestamp := ts, position := some p, content := some c, hash := h }
          | _, _ => none
      | _, _, _, _, _ => none
  | _ => none

/-- Decode a list of event values, failing on the first undecodable one. -/
def eventsOfJson : List Json → Option (List Event)
  | [] => some []
  | j :: rest =>
      match eventOfJson j, eventsOfJson rest with
      | some e, some es => some (e :: es)
      | _, _ => none

/-- Partial inverse of `sessionToJson`. -/
def sessionOfJson (j : Json) : Option Session :=
  match j with
  | .obj f =>
      match jsLookup f "id".toList, jsLookup f "startTime".toList,
          jsLookup f "endTime".toList, jsLookup f "baseContent".toList,
          jsLookup f "events".toList with
      | some (.str i), some (.str st), some (.str et), some (.str bc), some (.arr evs) =>
          (eventsOfJson evs).map (fun es =>
            { id := i, startTime := st, endTime := et, baseContent := bc, events := es })
      | _, _, _, _, _ => none
  | _ => none

/-- Decode a list of session values. -/
def sessionsOfJson : List Json → Option (List Session)
  | [] => some []
  | j :: rest =>
      match sessionOfJson j, sessionsOfJson rest with
      | some s, some ss => some (s :: ss)
      | _, _ => none

/-- Partial inverse of `metadataToJson`. -/
def metadataOfJson (j : Json) : Option Metadata :=
  match j with
  | .obj f =>
      match jsLookup f "title".toList, jsLookup f "createdAt".toList,
          jsLookup f "lastModifiedAt".toList, jsLookup f "editorVersion".toList with
      | some (.str t), some (.str c), some (.str l), some (.str e) =>
          some { title := t, createdAt := c, lastModifiedAt := l, editorVersion := e }
      | _, _, _, _ => none
  | _ => none

/-- Partial inverse of `serialize`: recover the document from its JSON
value, for stating the lossless round trip. -/
def docOfJson (j : Json) : Option Document :=
  match j with
  | .obj f =>
      match jsLookup f "version".toList, jsLookup f "finalContent".toList,
          jsLookup f "contentHash".toList with
      | some (.str v), some (.str fc), some (.str ch) =>
          let md :=
            match jsLookup f "metadata".toList with
            | none => some none
            | some mj => (metadataOfJson mj).map some
          let sd :=
            match jsLookup f "sessions".toList with
            | none => some none
            | some (.arr sjs) => (sessionsOfJson sjs).map some
            | some _ => none
          md.bind (fun m => sd.map (fun s =>
            { version := v, metadata := m, sessions := s,
              finalContent := fc, contentHash := ch }))
      | _, _, _ => none
  | _ => none

/-! ## Replay reconstruction (the replay module) -/

/-- A flattened replay event: the stored event together with the
`sessionId` and `sessionBaseContent` fields the replay flattening attaches
(`sessionBaseContent` is `session.baseContent or the empty string`). -/
structure FlatEvent where
  event : Event
  sessionId : Str
  sessionBaseContent : Str
deriving Repr, DecidableEq

/-- `applyEvent(event)` of the replay module, as a function of the current
`replayContent`: splice on truthy `insert`/`paste` content, remove
`content.length` characters on truthy `delete` content (never re-checking
the removed text), reset to the session base on `session_start` when that
base is truthy, and leave content untouched otherwise (in particular on
`session_end`).  `substring` clamps out-of-range offsets exactly as
`List.take` / `List.drop` do, and a `null` position coerces to `0`. -/
def applyEvent (replayContent : Str) (e : FlatEvent) : Str :=
  let p := e.event.position.getD 0
  let c := e.event.content.getD []
  if e.event.type = EventType.INSERT then
    if c.isEmpty then replayContent
    else replayContent.take p ++ c ++ replayContent.drop p
  else if e.event.type = EventType.DELETE then
    if c.isEmpty then replayContent
    else replayContent.take p ++ replayContent.drop (p + c.length)
  else if e.event.type = EventType.PASTE then
    if c.isEmpty then replayContent
    else replayContent.take p ++ c ++ replayContent.drop p
  else if e.event.type = EventType.SESSION_START then
    if e.sessionBaseContent.isEmpty then replayContent else e.sessionBaseContent
  else replayContent

/-- The `switch` inside `seekToEvent` (it has no `session_end` case; the
content is untouched there, as in `applyEvent`). -/
def seekStep (replayContent : Str) (e : FlatEvent) : Str :=
  let p := e.event.position.getD 0
  let c := e.event.content.getD []
  if e.event.type = EventType.SESSION_START then
    if e.sessionBaseContent.isEmpty then replayContent else e.sessionBaseContent
  else if e.event.type = EventType.INSERT ∨ e.event.type = EventType.PASTE then
    if c.isEmpty then replayContent
    else replayContent.take p ++ c ++ replayContent.drop p
  else if e.event.type = EventType.DELETE then
    if c.isEmpty then replayContent
    else replayContent.take p ++ replayContent.drop (p + c.length)
  else replayContent

/-- `seekToEvent(targetIndex)`: rebuild the content from the empty string
by walking events `0 … targetIndex` inclusive. -/
def seekToEvent (flatEvents : List FlatEvent) (targetIndex : Nat) : Str :=
  (flatEvents.take (targetIndex + 1)).foldl seekStep []

/-- The reconstruction algorithm exactly as the specification words it:
on `session_start` take the session's base content if present, on
`insert`/`paste` splice `event.content` in at `event.position`, on `delete`
drop `event.content.length` characters at `event.position` without
re-validating the removed text, otherwise leave the content unchanged. -/
def reconstructionSpec (content : Str) (e : FlatEvent) : Str :=
  let p := e.event.position.getD 0
  let c := e.event.content.getD []
  if e.event.type = EventType.SESSION_START then
    if e.sessionBaseContent.isEmpty then content else e.sessionBaseContent
  else if e.event.type = EventType.INSERT ∨ e.event.type = EventType.PASTE then
    content.take p ++ c ++ content.drop p
  else if e.event.type = EventType.DELETE then
    content.take p ++ content.drop (p + c.length)
  else content

/-! ## Auxiliary definitions for the statements below -/

/-- The previous hash `verifyHashChain` feeds into the recomputation at
index `i` of a chain that verifies: the starting hash for `i = 0`, the
stored hash of event `i - 1` otherwise. -/
def prevHashAt : Str → List Event → Nat → Str
  | prev, _, 0 => prev
  | prev, [], _ + 1 => prev
  | _, e :: rest, i + 1 => prevHashAt e.hash rest i

/-- The recorder's chain invariant: the accumulated events form a hash
chain from the empty starting hash, and `lastHash` is the stored hash of
the last event (or empty when there is none). -/
def RecInv (s : RecorderState) : Prop :=
  chainedFrom [] s.events = true ∧ s.lastHash = lastHashOf [] s.events

/-- Concrete `session_start` event with its genuine SHA-256 chain hash
(digest of its canonical encoding with the empty previous hash). -/
def wEv0 : Event :=
  { type := EventType.SESSION_START, timestamp := 0, position := none,
    content := none,
    hash := "5ccd1a572b055333402ff5d20585852f5f01e06433bb905cda26202a535fc5e0".toList }

/-- Concrete `insert` event chained onto `wEv0` with its genuine hash. -/
def wEv1 : Event :=
  { type := EventType.INSERT, timestamp := 1, position := some 0,
    content := some "a".toList,
    hash := "8760fe5311e269fb963409d5e56ccf3ea424a77991cba662f7e2b112d836f7a6".toList }

/-- `wEv1` with its content tampered from `a` to `b`, hash untouched. -/
def wEv1m : Event := { wEv1 with content := some "b".toList }

/-- Concrete metadata record for the closed statements below. -/
def wMeta : Metadata :=
  { title := "t".toList, createdAt := "c".toList, lastModifiedAt := "l".toList,
    editorVersion := "1.0.0".toList }

/-- A document already holding one session with id `s1`. -/
def wDocS1 : Document :=
  { version := "1.0.0".toList, metadata := some wMeta,
    sessions := some [{ id := "s1".toList, startTime := [], endTime := [],
                        baseContent := [], events := [] }],
    finalContent := [], contentHash := [] }

/-- A document with empty `finalContent` but a bogus non-empty
`contentHash` (tampered): the digest comparison of `validate` is skipped
because the empty final content is falsy. -/
def wDocEmptyFinal : Document :=
  { version := "1.0.0".toList, metadata := some wMeta, sessions := some [],
    finalContent := [], contentHash := "bogus".toList }

/-- A document with non-empty final content and a tampered content hash. -/
def wDocMismatch : Document :=
  { version := "1.0.0".toList, metadata := some wMeta, sessions := some [],
    finalContent := "x".toList, contentHash := "bogus".toList }

/-- A parsed JSON value whose three required fields are all present but
whose `version` is the empty string (falsy). -/
def wJsonFalsyVersion : Json :=
  .obj [("version".toList, .str []),
        ("metadata".toList, .obj []),
        ("sessions".toList, .arr [])]

/-- A document with one session holding the specification's statistics
scenario: insert `H` at 0, insert `i` at 1, delete `i` at 1, paste `ello`
at 1 (hashes irrelevant to statistics). -/
def wStatsDoc : Document :=
  { version := "1.0.0".toList, metadata := some wMeta,
    sessions := some
      [{ id := "s".toList, startTime := [], endTime := [], baseContent := [],
         events :=
           [{ type := EventType.INSERT, timestamp := 0, position := some 0,
              content := some "H".toList, hash := [] },
            { type := EventType.INSERT, timestamp := 1, position := some 1,
              content := some "i".toList, hash := [] },
            { type := EventType.DELETE, timestamp := 2, position := some 1,
              content := some "i".toList, hash := [] },
            { type := EventType.PASTE, timestamp := 3, position := some 1,
              content := some "ello".toList, hash := [] }] }],
    finalContent := [], contentHash := [] }

/-- The statistics record `getStatistics` produces on `wStatsDoc`. -/
def wStats : Stats :=
  { sessionCount := 1, totalEvents := 4, insertEvents := 2, deleteEvents := 1,
    pasteEvents := 1, totalCharsTyped := 2, totalCharsDeleted := 1,
    totalCharsPasted := 4, totalWritingTimeMs := 0,
    totalWritingTimeFormatted := "0s".toList,
    pasteRatio := (1 : Rat) / 4, finalContentLength := 0 }

/-! # Theorems -/

/-- Sanity check against the `abc` test vector of FIPS 180-4. -/
theorem sha256_abc :
    sha256 "abc".toList
      = "ba7816bf8f01cfea414140de5dae2223b00361a396177a9cb410ff61f20015ad".toList := by
  decide

/-- Sanity check: digest of the empty string. -/
theorem sha256_empty :
    sha256 []
      = "e3b0c44298fc1c149afbf4c8996fb92427ae41e4649b934ca495991b7852b855".toList := by
  decide

/-! ## Hash-chain lemmas -/

/-- Appending an event leaves its stored hash as the chain's last hash. -/
theorem lastHashOf_append (prev : Str) (l : List Event) (e : Event) :
    lastHashOf prev (l ++ [e]) = e.hash := by
  induction l generalizing prev with
  | nil => rfl
  | cons f rest ih => simpa [lastHashOf] using ih f.hash

/-- Appending an event correctly chained onto the last hash preserves the
adjacent-link property. -/
theorem chainedFrom_append (prev : Str) (l : List Event) (e : Event)
    (hl : chainedFrom prev l = true)
    (he : e.hash = computeEventHash e (lastHashOf prev l)) :
    chainedFrom prev (l ++ [e]) = true := by
  induction l generalizing prev with
  | nil => simp_all [chainedFrom, lastHashOf]
  | cons f rest ih =>
      simp only [chainedFrom, List.cons_append, Bool.and_eq_true, decide_eq_true_eq] at hl ⊢
      exact ⟨hl.1, ih f.hash hl.2 (by simpa [lastHashOf] using he)⟩

/-- A chain satisfying the adjacent-link property passes the verification
loop, whose final running hash is the chain's last stored hash. -/
theorem verifyLoop_of_chained (l : List Event) (prev : Str) (i : Nat)
    (h : chainedFrom prev l = true) :
    verifyLoop l prev i =
      { valid := true, brokenAt := none,
        message := "Hash chain verified successfully".toList,
        lastHash := lastHashOf prev l } := by
  induction l generalizing prev i with
  | nil => rfl
  | cons e rest ih =>
      simp only [chainedFrom, Bool.and_eq_true, decide_eq_true_eq] at h
      unfold verifyLoop
      rw [if_pos h.1]
      exact ih _ _ h.2

/-- Conversely, a chain the verification loop accepts satisfies the
adjacent-link property. -/
theorem chained_of_verifyLoop (l : List Event) (prev : Str) (i : Nat)
    (h : (verifyLoop l prev i).valid = true) :
    chainedFrom prev l = true := by
  induction l generalizing prev i with
  | nil => rfl
  | cons e rest ih =>
      unfold verifyLoop at h
      by_cases hc : e.hash = computeEventHash e prev
      · rw [if_pos hc] at h
        simp only [chainedFrom, Bool.and_eq_true, decide_eq_true_eq]
        exact ⟨hc, ih _ _ h⟩
      · rw [if_neg hc] at h
        simp at h

/-- A chain with the adjacent-link property verifies. -/
theorem verifyHashChain_valid_of_chained (l : List Event)
    (h : chainedFrom [] l = true) :
    (verifyHashChain (some l) []).valid = true := by
  cases l with
  | nil => rfl
  | cons e rest =>
      show (verifyLoop (e :: rest) [] 0).valid = true
      rw [verifyLoop_of_chained _ _ _ h]

/-! ## C10 — empty chains verify -/

/-- C10: `verifyHashChain` on a `null`/`undefined` (modelled `none`) or
empty event list returns `valid = true`, `brokenAt = null`, and passes the
starting hash through unchanged as `lastHash`, for every starting hash. -/
theorem verifyHashChain_empty_valid (startingHash : Str) :
    verifyHashChain none startingHash =
      { valid := true, brokenAt := none,
        message := "No events to verify".toList, lastHash := startingHash } ∧
    verifyHashChain (some []) startingHash =
      { valid := true, brokenAt := none,
        message := "No events to verify".toList, lastHash := startingHash } :=
  ⟨rfl, rfl⟩

/-! ## C8 — inactive recorder calls are pure no-ops -/

/-- C8: whenever the recorder is not active, `recordInsert`,
`recordDelete`, `recordPaste` and `endSession` each return the `null`
sentinel and leave the state (events, lastHash, active flag, session start
time) completely unchanged.  All four are total functions, so none can
throw. -/
theorem recorder_inactive_noop (s : RecorderState) (now position : Nat)
    (content : Str) (h : s.isRecording = false) :
    recordInsert s now position content = (s, none) ∧
    recordDelete s now position content = (s, none) ∧
    recordPaste s now position content = (s, none) ∧
    endSession s now = (s, none) := by
  unfold recordInsert recordDelete recordPaste endSession
  rw [h]
  simp

/-- Closed witness for C8: the fresh recorder is inactive, and all four
calls on it return the sentinel with the state unchanged. -/
theorem recorder_inactive_noop_witness :
    createRecorder.isRecording = false ∧
    (recordInsert createRecorder 5 0 "a".toList = (createRecorder, none) ∧
      recordDelete createRecorder 5 0 "a".toList = (createRecorder, none) ∧
      recordPaste createRecorder 5 0 "a".toList = (createRecorder, none) ∧
      endSession createRecorder 5 = (createRecorder, none)) :=
  ⟨rfl, recorder_inactive_noop createRecorder 5 0 "a".toList rfl⟩

/-! ## C6 — replay reconstruction -/

/-- The incremental replay step computes exactly the splice/remove/reset
algorithm the specification describes (the truthiness guards of the source
collapse into the unguarded splice formulas because splicing or removing
the empty string is the identity). -/
theorem applyEvent_eq_reconstructionSpec (content : Str) (e : FlatEvent) :
    applyEvent content e = reconstructionSpec content e := by
  unfold applyEvent reconstructionSpec
  by_cases hS : e.event.type = EventType.SESSION_START
  · have h1 : ¬ e.event.type = EventType.INSERT := by rw [hS]; decide
    have h2 : ¬ e.event.type = EventType.DELETE := by rw [hS]; decide
    have h3 : ¬ e.event.type = EventType.PASTE := by rw [hS]; decide
    rw [if_neg h1, if_neg h2, if_neg h3, if_pos hS, if_pos hS]
  · by_cases hI : e.event.type = EventType.INSERT
    · rw [if_pos hI, if_neg hS,
        if_pos (Or.inl hI : e.event.type = EventType.INSERT ∨ e.event.type = EventType.PASTE)]
      by_cases hc : (e.event.content.getD []).isEmpty = true
      · have hc' : e.event.content.getD [] = [] := by simpa using hc
        rw [if_pos hc, hc']
        simp
      · rw [if_neg hc]
    · by_cases hD : e.event.type = EventType.DELETE
      · have h3 : ¬ e.event.type = EventType.PASTE := by rw [hD]; decide
        have h4 : ¬ (e.event.type = EventType.INSERT ∨ e.event.type = EventType.PASTE) := by
          rintro (h | h)
          · exact hI h
          · exact h3 h
        rw [if_neg hI, if_pos hD, if_neg hS, if_neg h4, if_pos hD]
        by_cases hc : (e.event.content.getD []).isEmpty = true
        · have hc' : e.event.content.getD [] = [] := by simpa using hc
          rw [if_pos hc, hc']
          simp
        · rw [if_neg hc]
      · by_cases hP : e.event.type = EventType.PASTE
        · rw [if_neg hI, if_neg hD, if_pos hP, if_neg hS,
            if_pos (Or.inr hP : e.event.type = EventType.INSERT ∨ e.event.type = EventType.PASTE)]
          by_cases hc : (e.event.content.getD []).isEmpty = true
          · have hc' : e.event.content.getD [] = [] := by simpa using hc
            rw [if_pos hc, hc']
            simp
          · rw [if_neg hc]
        · have h4 : ¬ (e.event.type = EventType.INSERT ∨ e.event.type = EventType.PASTE) := by
            rintro (h | h)
            · exact hI h
            · exact hP h
          rw [if_neg hI, if_neg hD, if_neg hP, if_neg hS, if_neg hS, if_neg h4, if_neg hD]

/-- The `switch` of `seekToEvent` agrees with `applyEvent` on every event:
the only syntactic difference is the `session_end` case, which leaves the
content unchanged on both sides. -/
theorem seekStep_eq_applyEvent (content : Str) (e : FlatEvent) :
    seekStep content e = applyEvent content e := by
  unfold seekStep applyEvent
  by_cases hS : e.event.type = EventType.SESSION_START
  · have h1 : ¬ e.event.type = EventType.INSERT := by rw [hS]; decide
    have h2 : ¬ e.event.type = EventType.DELETE := by rw [hS]; decide
    have h3 : ¬ e.event.type = EventType.PASTE := by rw [hS]; decide
    rw [if_pos hS, if_neg h1, if_neg h2, if_neg h3, if_pos hS]
  · by_cases hI : e.event.type = EventType.INSERT
    · rw [if_neg hS,
        if_pos (Or.inl hI : e.event.type = EventType.INSERT ∨ e.event.type = EventType.PASTE),
        if_pos hI]
    · by_cases hP : e.event.type = EventType.PASTE
      · have h2 : ¬ e.event.type = EventType.DELETE := by rw [hP]; decide
        rw [if_neg hS,
          if_pos (Or.inr hP : e.event.type = EventType.INSERT ∨ e.event.type = EventType.PASTE),
          if_neg hI, if_neg h2, if_pos hP]
      · have h4 : ¬ (e.event.type = EventType.INSERT ∨ e.event.type = EventType.PASTE) := by
          rintro (h | h)
          · exact hI h
          · exact hP h
        by_cases hD : e.event.type = EventType.DELETE
        · rw [if_neg hS, if_neg h4, if_pos hD, if_neg hI, if_pos hD]
        · rw [if_neg hS, if_neg h4, if_neg hD, if_neg hI, if_neg hD, if_neg hP, if_neg hS]

/-- C6: the replay algorithm computes exactly the splice/remove/reset
semantics the specification states — `session_start` resets to the session
base when present, `insert`/`paste` splice the content in at the position,
`delete` drops `content.length` characters at the position without
re-validating the removed text — and rebuilding from scratch up to index
`n` (`seekToEvent`) equals applying events `0 … n` incrementally
(`applyEvent`) starting from the empty content. -/
theorem replay_reconstruction_exact (content : Str) (e : FlatEvent)
    (l : List FlatEvent) (n : Nat) :
    applyEvent content e = reconstructionSpec content e ∧
    seekToEvent l n = (l.take (n + 1)).foldl applyEvent [] := by
  constructor
  · exact applyEvent_eq_reconstructionSpec content e
  · unfold seekToEvent
    exact List.foldl_ext _ _ _ (fun a b _ => seekStep_eq_applyEvent a b)

/-! ## C1 — the recorder maintains the hash-chain invariant -/

/-- Overwriting the `hash` field does not change the chained digest: only
the four payload fields and the previous hash enter the encoding. -/
theorem computeEventHash_sethash (e : Event) (h prev : Str) :
    computeEventHash { e with hash := h } prev = computeEventHash e prev := rfl

/-- Appending an event whose stored hash is the chained digest against the
current `lastHash` preserves the recorder invariant, whatever happens to
the activity flag and the session start time. -/
theorem recInv_push (s : RecorderState) (e : Event) (lh : Str) (b : Bool)
    (t : Option Nat) (h : RecInv s)
    (he : e.hash = computeEventHash e s.lastHash) (hlh : lh = e.hash) :
    RecInv { events := s.events ++ [e], lastHash := lh,
             isRecording := b, sessionStartTime := t } := by
  constructor
  · exact chainedFrom_append _ _ _ h.1 (by rw [he, h.2])
  · show lh = lastHashOf [] (s.events ++ [e])
    rw [lastHashOf_append, hlh]

/-- The chained digest ignores the `hash` field, stated on explicit
constructor applications so that no deep definitional unfolding is needed
to use it. -/
theorem computeEventHash_irrel (t : Str) (ts : Nat) (p : Option Nat)
    (c : Option Str) (h1 h2 prev : Str) :
    computeEventHash { type := t, timestamp := ts, position := p, content := c, hash := h1 } prev
      = computeEventHash { type := t, timestamp := ts, position := p, content := c, hash := h2 } prev :=
  rfl

/-- `recInv_push` specialized to the exact shape every recorder operation
produces: the appended event's hash is the chained digest of its payload
(carrying the `[]` placeholder) against the current `lastHash`. -/
theorem recInv_pushMk (s : RecorderState) (t : Str) (ts : Nat) (p : Option Nat)
    (c : Option Str) (b : Bool) (st : Option Nat) (h : RecInv s) :
    RecInv { events := s.events ++
               [{ type := t, timestamp := ts, position := p, content := c,
                  hash := computeEventHash
                    { type := t, timestamp := ts, position := p, content := c, hash := [] }
                    s.lastHash }],
             lastHash := computeEventHash
               { type := t, timestamp := ts, position := p, content := c, hash := [] }
               s.lastHash,
             isRecording := b, sessionStartTime := st } := by
  refine recInv_push s _ _ b st h ?_ ?_
  · rw [computeEventHash_irrel t ts p c
      (computeEventHash { type := t, timestamp := ts, position := p, content := c, hash := [] } s.lastHash)
      [] s.lastHash]
  · with_reducible rfl

/-- `startSession` preserves the recorder invariant. -/
theorem recInv_startSession (s : RecorderState) (now : Nat) (h : RecInv s) :
    RecInv (startSession s now).1 := by
  dsimp only [startSession]
  exact recInv_pushMk s _ _ _ _ true (some now) h

/-- Every recorder call after the session start preserves the invariant. -/
theorem recInv_applyRecOp (s : RecorderState) (op : RecOp) (h : RecInv s) :
    RecInv (applyRecOp s op) := by
  cases op with
  | insert now p c =>
      dsimp only [applyRecOp, recordInsert]
      by_cases hr : s.isRecording = true
      · rw [if_pos hr]
        exact recInv_pushMk s _ _ _ _ s.isRecording s.sessionStartTime h
      · rw [if_neg hr]
        exact h
  | delete now p c =>
      dsimp only [applyRecOp, recordDelete]
      by_cases hr : s.isRecording = true
      · rw [if_pos hr]
        exact recInv_pushMk s _ _ _ _ s.isRecording s.sessionStartTime h
      · rw [if_neg hr]
        exact h
  | paste now p c =>
      dsimp only [applyRecOp, recordPaste]
      by_cases hr : s.isRecording = true
      · rw [if_pos hr]
        exact recInv_pushMk s _ _ _ _ s.isRecording s.sessionStartTime h
      · rw [if_neg hr]
        exact h
  | finish now =>
      dsimp only [applyRecOp, endSession]
      by_cases hr : s.isRecording = true
      · rw [if_pos hr]
        exact recInv_pushMk s _ _ _ _ false s.sessionStartTime h
      · rw [if_neg hr]
        exact h

/-- Running any sequence of recorder calls preserves the invariant. -/
theorem recInv_runRecOps (s : RecorderState) (ops : List RecOp) (h : RecInv s) :
    RecInv (runRecOps s ops) := by
  induction ops generalizing s with
  | nil => exact h
  | cons op rest ih => exact ih _ (recInv_applyRecOp s op h)

/-- C1: for every event sequence produced by a fresh recorder — a
`startSession` followed by any sequence of `recordInsert` /
`recordDelete` / `recordPaste` / `endSession` calls — the hash-chain
invariant holds on `getEvents()`: every event's stored hash is the chained
digest of its payload with the previous event's stored hash (the empty
hash for the first event), and equivalently
`verifyHashChain(getEvents(), startingHash = empty)` reports valid. -/
theorem recorder_chain_invariant (now : Nat) (ops : List RecOp) :
    chainedFrom [] (getEvents (runRecOps (startSession createRecorder now).1 ops)) = true ∧
    (verifyHashChain (some (getEvents (runRecOps (startSession createRecorder now).1 ops))) []).valid
      = true := by
  have h : RecInv (runRecOps (startSession createRecorder now).1 ops) :=
    recInv_runRecOps _ _ (recInv_startSession createRecorder now ⟨rfl, rfl⟩)
  exact ⟨h.1, verifyHashChain_valid_of_chained _ h.1⟩

/-! ## C2 — tamper detection -/

/-- On a non-empty list `verifyHashChain` is the verification loop from
index 0. -/
theorem verifyHashChain_of_ne_nil (l : List Event) (h0 : Str) (h : l ≠ []) :
    verifyHashChain (some l) h0 = verifyLoop l h0 0 := by
  cases l with
  | nil => exact absurd rfl h
  | cons f r => rfl

/-- Replacing the event at index `i` of a verifying chain by an event with
the same stored hash whose recomputed digest no longer matches makes the
verification loop stop exactly there: the untouched prefix still verifies,
and the mismatch at `i` is reported with the running hash it was checked
against. -/
theorem verifyLoop_set_break (i : Nat) :
    ∀ (l : List Event) (prev : Str) (k : Nat) (e : Event),
      (verifyLoop l prev k).valid = true →
      i < l.length →
      computeEventHash e (prevHashAt prev l i) ≠ e.hash →
      verifyLoop (l.set i e) prev k =
        { valid := false, brokenAt := some (k + i),
          message := brokenMessage (k + i) e, lastHash := prevHashAt prev l i } := by
  induction i with
  | zero =>
      intro l prev k e hv hi hnc
      cases l with
      | nil => simp at hi
      | cons f rest =>
          rw [List.set_cons_zero]
          show verifyLoop (e :: rest) prev k = _
          unfold verifyLoop
          rw [if_neg (fun hh => hnc hh.symm)]
          simp [prevHashAt]
  | succ i ih =>
      intro l prev k e hv hi hnc
      cases l with
      | nil => simp at hi
      | cons f rest =>
          unfold verifyLoop at hv
          by_cases hf : f.hash = computeEventHash f prev
          · rw [if_pos hf] at hv
            have hi' : i < rest.length := by
              simpa [List.length_cons, Nat.succ_lt_succ_iff] using hi
            have hnc' : computeEventHash e (prevHashAt f.hash rest i) ≠ e.hash := by
              simpa [prevHashAt] using hnc
            rw [List.set_cons_succ]
            show verifyLoop (f :: rest.set i e) prev k = _
            unfold verifyLoop
            rw [if_pos hf, ih rest f.hash (k + 1) e hv hi' hnc']
            have harith : k + 1 + i = k + (i + 1) := by omega
            rw [harith]
            rfl
          · rw [if_neg hf] at hv
            simp at hv

/-- C2: mutating a single event of a verifying chain — same stored hash,
same type and timestamp, different content or position — makes
`verifyHashChain` report `valid = false` with `brokenAt` exactly the
mutated index, provided the digest does not collide there (the recomputed
digest of the mutated event differs from the stored hash; this is the
collision-resistance idealization of SHA-256). -/
theorem tamper_detection (l : List Event) (i : Nat) (hi : i < l.length) (e : Event)
    (hvalid : (verifyHashChain (some l) []).valid = true)
    (hhash : e.hash = (l.get ⟨i, hi⟩).hash)
    (htype : e.type = (l.get ⟨i, hi⟩).type)
    (hts : e.timestamp = (l.get ⟨i, hi⟩).timestamp)
    (hmut : e.content ≠ (l.get ⟨i, hi⟩).content ∨ e.position ≠ (l.get ⟨i, hi⟩).position)
    (hnc : computeEventHash e (prevHashAt [] l i) ≠ e.hash) :
    (verifyHashChain (some (l.set i e)) []).valid = false ∧
    (verifyHashChain (some (l.set i e)) []).brokenAt = some i := by
  cases l with
  | nil => simp at hi
  | cons f rest =>
      have hv' : (verifyLoop (f :: rest) [] 0).valid = true := hvalid
      have hbreak := verifyLoop_set_break i (f :: rest) [] 0 e hv' hi hnc
      have hne : ((f :: rest).set i e) ≠ [] := by
        intro hcontra
        have hlen := congrArg List.length hcontra
        simp at hlen
      rw [verifyHashChain_of_ne_nil _ _ hne, hbreak]
      simp

/-! ## C3 — per-session chains and session isolation -/

/-- The loop of `verifyProvenanceFile` characterized: overall validity is
the conjunction over sessions of independent chain verification from the
empty hash, and the results list carries one entry per session, keyed by
its id, with that session's verification outcome. -/
theorem verifySessions_eq (ss : List Session) :
    verifySessions ss =
      { valid := ss.all (fun s => (verifyHashChain (some s.events) []).valid),
        results := ss.map (fun s =>
          { sessionId := s.id,
            valid := (verifyHashChain (some s.events) []).valid,
            brokenAt := (verifyHashChain (some s.events) []).brokenAt,
            message := (verifyHashChain (some s.events) []).message,
            lastHash := (verifyHashChain (some s.events) []).lastHash }) } := by
  induction ss with
  | nil => rfl
  | cons s rest ih => simp [verifySessions, ih, List.all_cons]

/-- Appending further events to a verifying chain whose junction digest
does not match breaks verification exactly at the junction index. -/
theorem verifyLoop_append_break (l1 : List Event) :
    ∀ (prev : Str) (k : Nat) (e : Event) (l2 : List Event),
      (verifyLoop l1 prev k).valid = true →
      computeEventHash e (lastHashOf prev l1) ≠ e.hash →
      verifyLoop (l1 ++ e :: l2) prev k =
        { valid := false, brokenAt := some (k + l1.length),
          message := brokenMessage (k + l1.length) e, lastHash := lastHashOf prev l1 } := by
  induction l1 with
  | nil =>
      intro prev k e l2 hv hnc
      show verifyLoop (e :: l2) prev k = _
      unfold verifyLoop
      rw [if_neg (fun hh => hnc hh.symm)]
      simp [lastHashOf]
  | cons f rest ih =>
      intro prev k e l2 hv hnc
      unfold verifyLoop at hv
      by_cases hf : f.hash = computeEventHash f prev
      · rw [if_pos hf] at hv
        rw [List.cons_append]
        show verifyLoop (f :: (rest ++ e :: l2)) prev k = _
        unfold verifyLoop
        rw [if_pos hf, ih f.hash (k + 1) e l2 hv (by simpa [lastHashOf] using hnc)]
        have harith : k + 1 + rest.length = k + (f :: rest).length := by
          simp [List.length_cons]
          omega
        rw [harith]
        rfl
      · rw [if_neg hf] at hv
        simp at hv

/-- C3 (amended): `verifyProvenanceFile` verifies each session's chain
independently from the empty starting hash, returns one result per session
keyed by session id, and its validity is the conjunction of the
per-session outcomes; and for two independently verifying event lists that
are **both non-empty**, concatenating them and verifying as one chain from
the empty hash fails at the junction (index = length of the first list),
provided the junction digest does not collide (the chained digest of the
second list's first event against the first list's last stored hash
differs from its stored hash — the collision-resistance idealization). -/
theorem session_isolation (doc : Document) (ss : List Session)
    (hs : doc.sessions = some ss)
    (l1 l2 : List Event) (e2 : Event)
    (h1 : l1 ≠ [])
    (hv1 : (verifyHashChain (some l1) []).valid = true)
    (hv2 : (verifyHashChain (some (e2 :: l2)) []).valid = true)
    (hnc : computeEventHash e2 (lastHashOf [] l1) ≠ e2.hash) :
    verifyProvenanceFile doc = some
      { valid := ss.all (fun s => (verifyHashChain (some s.events) []).valid),
        results := ss.map (fun s =>
          { sessionId := s.id,
            valid := (verifyHashChain (some s.events) []).valid,
            brokenAt := (verifyHashChain (some s.events) []).brokenAt,
            message := (verifyHashChain (some s.events) []).message,
            lastHash := (verifyHashChain (some s.events) []).lastHash }) } ∧
    (verifyHashChain (some (l1 ++ e2 :: l2)) []).valid = false ∧
    (verifyHashChain (some (l1 ++ e2 :: l2)) []).brokenAt = some l1.length := by
  have hne : l1 ++ e2 :: l2 ≠ [] := by simp
  have hv1' : (verifyLoop l1 [] 0).valid = true := by
    rwa [verifyHashChain_of_ne_nil _ _ h1] at hv1
  have hbreak := verifyLoop_append_break l1 [] 0 e2 l2 hv1' hnc
  refine ⟨?_, ?_, ?_⟩
  · unfold verifyProvenanceFile
    rw [hs]
    show some (verifySessions ss) = _
    rw [verifySessions_eq]
  · rw [verifyHashChain_of_ne_nil _ _ hne, hbreak]
  · rw [verifyHashChain_of_ne_nil _ _ hne, hbreak]
    simp

/-! ## C4 — `addSession` appends unconditionally -/

/-- C4 (amended): `addSession` always appends a freshly built Session
entry — even when a session with the same `sessionId` already exists
(replace-by-id lives at the call sites, not here) — and refreshes
`metadata.lastModifiedAt`.  The other document fields are untouched. -/
theorem addSession_always_appends (dateToISO : Nat → Str) (nowIso : Str)
    (doc : Document) (m : Metadata) (ss : List Session) (sessionId : Str)
    (startTime endTime : Nat) (events : List Event) (baseContent : Str)
    (hm : doc.metadata = some m) (hs : doc.sessions = some ss) :
    addSession dateToISO nowIso doc sessionId startTime endTime events baseContent =
      some { version := doc.version,
             metadata := some { m with lastModifiedAt := nowIso },
             sessions := some (ss ++
               [{ id := sessionId, startTime := dateToISO startTime,
                  endTime := dateToISO endTime, baseContent := baseContent,
                  events := events }]),
             finalContent := doc.finalContent,
             contentHash := doc.contentHash } := by
  unfold addSession
  rw [hm, hs]

/-- Closed witness for C4's amended statement at a concrete document that
already holds a session with id `s1`: adding another `s1` session appends. -/
theorem addSession_always_appends_witness :
    addSession (fun _ => []) "n".toList wDocS1 "s1".toList 0 0 [] [] =
      some { version := "1.0.0".toList,
             metadata := some { wMeta with lastModifiedAt := "n".toList },
             sessions := some
               ([{ id := "s1".toList, startTime := [], endTime := [],
                   baseContent := [], events := [] }] ++
                [{ id := "s1".toList, startTime := [], endTime := [],
                   baseContent := [], events := [] }]),
             finalContent := [], contentHash := [] } :=
  addSession_always_appends (fun _ => []) "n".toList wDocS1 wMeta
    [{ id := "s1".toList, startTime := [], endTime := [], baseContent := [], events := [] }]
    "s1".toList 0 0 [] [] rfl rfl

/-- Counterexample to C4 as frozen: adding a session whose id already
exists does **not** replace the existing entry — the result holds two
sessions with the same id `s1`, where the claim demands one. -/
theorem addSession_duplicate_counterexample :
    (addSession (fun _ => []) [] wDocS1 "s1".toList 0 0 [] []).map
        (fun d => (d.sessions.getD []).map Session.id)
      = some ["s1".toList, "s1".toList] := by
  rfl

/-! ## C5 — the final-content hash mismatch error -/

/-- C5 (amended): on a document whose metadata is present with truthy
`createdAt` / `lastModifiedAt`, whose version is truthy, whose session
chains all verify, and whose `finalContent` and `contentHash` are **both
non-empty** with `contentHash ≠ digest(finalContent)`, `validate` returns
`valid = false` with exactly the final-content-hash-mismatch error and no
other error. -/
theorem validate_hash_mismatch_only (doc : Document) (m : Metadata)
    (ss : List Session)
    (hversion : doc.version ≠ [])
    (hm : doc.metadata = some m)
    (hca : m.createdAt ≠ []) (hlm : m.lastModifiedAt ≠ [])
    (hs : doc.sessions = some ss)
    (hchains : (verifySessions ss).valid = true)
    (hfc : doc.finalContent ≠ []) (hch : doc.contentHash ≠ [])
    (hmismatch : sha256 doc.finalContent ≠ doc.contentHash) :
    validate doc = .ok { valid := false, errors := [hashMismatchMsg] } := by
  unfold validate
  rw [hm, hs]
  simp [hversion, hca, hlm, hchains, hfc, hch, hmismatch]

/-- Closed witness for C5's amended statement: a concrete document with
non-empty final content `x` and tampered hash `bogus` validates to exactly
the mismatch error. -/
theorem validate_hash_mismatch_only_witness :
    validate wDocMismatch = .ok { valid := false, errors := [hashMismatchMsg] } :=
  validate_hash_mismatch_only wDocMismatch wMeta []
    (by decide) rfl (by decide) (by decide) rfl rfl (by decide) (by decide)
    (by decide)

/-- Counterexample to C5 as frozen: with `finalContent` the **empty
string** and a tampered non-empty `contentHash`, the digest comparison is
skipped (empty string is falsy), so `validate` reports `valid = true` with
no errors at all — not the mismatch error the claim demands. -/
theorem validate_empty_final_counterexample :
    validate wDocEmptyFinal = .ok { valid := true, errors := [] } ∧
    wDocEmptyFinal.contentHash ≠ sha256 wDocEmptyFinal.finalContent ∧
    wDocEmptyFinal.contentHash ≠ [] := by
  refine ⟨by rfl, by decide, by decide⟩

/-! ## C7 — serialization round trip and `parse`'s required-field check -/

/-- Decoding inverts encoding on events. -/
theorem eventOfJson_eventToJson (e : Event) :
    eventOfJson (eventToJson e) = some e := by
  rcases e with ⟨t, ts, pos, cont, h⟩
  cases pos <;> cases cont <;> rfl

/-- Decoding inverts encoding on event lists. -/
theorem eventsOfJson_map (l : List Event) :
    eventsOfJson (l.map eventToJson) = some l := by
  induction l with
  | nil => rfl
  | cons e rest ih =>
      simp only [List.map_cons, eventsOfJson]
      rw [eventOfJson_eventToJson, ih]

/-- Decoding inverts encoding on sessions. -/
theorem sessionOfJson_sessionToJson (s : Session) :
    sessionOfJson (sessionToJson s) = some s := by
  rcases s with ⟨i, st, et, bc, evs⟩
  show (eventsOfJson (evs.map eventToJson)).map (fun es =>
      ({ id := i, startTime := st, endTime := et, baseContent := bc, events := es } : Session))
    = some { id := i, startTime := st, endTime := et, baseContent := bc, events := evs }
  rw [eventsOfJson_map]
  rfl

/-- Decoding inverts encoding on session lists. -/
theorem sessionsOfJson_map (l : List Session) :
    sessionsOfJson (l.map sessionToJson) = some l := by
  induction l with
  | nil => rfl
  | cons s rest ih =>
      simp only [List.map_cons, sessionsOfJson]
      rw [sessionOfJson_sessionToJson, ih]

/-- Decoding inverts encoding on metadata. -/
theorem metadataOfJson_metadataToJson (m : Metadata) :
    metadataOfJson (metadataToJson m) = some m := by
  rcases m with ⟨t, c, l, e⟩
  rfl

/-- Losslessness of the document encoding: decoding the serialized JSON
value recovers the document, field for field. -/
theorem docOfJson_serialize (d : Document) :
    docOfJson (serialize d) = some d := by
  rcases d with ⟨v, md, sd, fc, ch⟩
  cases md with
  | none =>
      cases sd with
      | none => rfl
      | some ss =>
          show (((sessionsOfJson (ss.map sessionToJson)).map some).map (fun s =>
              ({ version := v, metadata := none, sessions := s,
                 finalContent := fc, contentHash := ch } : Document)))
            = some { version := v, metadata := none, sessions := some ss,
                     finalContent := fc, contentHash := ch }
          rw [sessionsOfJson_map]
          rfl
  | some m =>
      cases sd with
      | none => rfl
      | some ss =>
          show (((sessionsOfJson (ss.map sessionToJson)).map some).map (fun s =>
              ({ version := v, metadata := some m, sessions := s,
                 finalContent := fc, contentHash := ch } : Document)))
            = some { version := v, metadata := some m, sessions := some ss,
                     finalContent := fc, contentHash := ch }
          rw [sessionsOfJson_map]
          rfl

/-- `parse` succeeds, returning its argument, exactly on values satisfying
the required-field truthiness condition. -/
theorem parse_of_required (j : Json) (h : requiredFieldsTruthy j = true) :
    parse j = .ok j := by
  cases j with
  | obj fields =>
      have h' : (jsTruthy (jsLookup fields "version".toList)
          && jsTruthy (jsLookup fields "metadata".toList)
          && jsTruthy (jsLookup fields "sessions".toList)) = true := h
      show (if (jsTruthy (jsLookup fields "version".toList)
            && jsTruthy (jsLookup fields "metadata".toList)
            && jsTruthy (jsLookup fields "sessions".toList)) = true
          then Except.ok (Json.obj fields)
          else Except.error "Invalid provenance file format".toList)
        = Except.ok (Json.obj fields)
      rw [if_pos h']
  | null => simp [requiredFieldsTruthy] at h
  | str s => simp [requiredFieldsTruthy] at h
  | num n => simp [requiredFieldsTruthy] at h
  | arr xs => simp [requiredFieldsTruthy] at h

/-- A serialized document with truthy version and both optional top-level
objects present satisfies the required-field condition. -/
theorem requiredFields_serialize (d : Document) (hv : d.version ≠ [])
    (hm : d.metadata.isSome = true) (hs : d.sessions.isSome = true) :
    requiredFieldsTruthy (serialize d) = true := by
  rcases d with ⟨v, md, sd, fc, ch⟩
  cases md with
  | none => simp at hm
  | some m =>
      cases sd with
      | none => simp at hs
      | some ss =>
          show (!v.isEmpty && jsTruthy (some (metadataToJson m))
              && jsTruthy (some (.arr (ss.map sessionToJson)))) = true
          have hv' : v.isEmpty = false := by
            cases v with
            | nil => exact absurd rfl hv
            | cons a l => rfl
          rw [hv']
          rfl

/-- `parse` fails exactly when the required-field condition does not hold. -/
theorem parse_isOk_eq (j : Json) : (parse j).isOk = requiredFieldsTruthy j := by
  cases j with
  | obj fields =>
      show (if (jsTruthy (jsLookup fields "version".toList)
            && jsTruthy (jsLookup fields "metadata".toList)
            && jsTruthy (jsLookup fields "sessions".toList)) = true
          then Except.ok (Json.obj fields)
          else Except.error "Invalid provenance file format".toList).isOk
        = (jsTruthy (jsLookup fields "version".toList)
            && jsTruthy (jsLookup fields "metadata".toList)
            && jsTruthy (jsLookup fields "sessions".toList))
      by_cases hc : (jsTruthy (jsLookup fields "version".toList)
          && jsTruthy (jsLookup fields "metadata".toList)
          && jsTruthy (jsLookup fields "sessions".toList)) = true
      · rw [if_pos hc, hc]
        rfl
      · rw [if_neg hc]
        rw [Bool.not_eq_true] at hc
        rw [hc]
        rfl
  | null => rfl
  | str s => rfl
  | num n => rfl
  | arr xs => rfl

/-- C7 (amended): for every document with truthy `version` and its
`metadata` and `sessions` objects present — every document the
constructors build — `parse (serialize doc)` succeeds with a value that
decodes back to exactly `doc` (lossless round trip); and in general
`parse` accepts a parsed value exactly when `version`, `metadata` and
`sessions` are present **and truthy** (absence and falsy values such as
the empty-string version are rejected alike). -/
theorem parse_serialize_roundtrip (d : Document) (j : Json)
    (hv : d.version ≠ []) (hm : d.metadata.isSome = true)
    (hs : d.sessions.isSome = true) :
    parse (serialize d) = .ok (serialize d) ∧
    docOfJson (serialize d) = some d ∧
    (parse j).isOk = requiredFieldsTruthy j :=
  ⟨parse_of_required _ (requiredFields_serialize d hv hm hs),
   docOfJson_serialize d, parse_isOk_eq j⟩

/-- Closed witness for C7's amended statement on a freshly created
document and an arbitrary concrete JSON value. -/
theorem parse_serialize_roundtrip_witness :
    parse (serialize (createProvenanceDocument "c".toList "t".toList)) =
      .ok (serialize (createProvenanceDocument "c".toList "t".toList)) ∧
    docOfJson (serialize (createProvenanceDocument "c".toList "t".toList)) =
      some (createProvenanceDocument "c".toList "t".toList) ∧
    (parse (.num 3)).isOk = requiredFieldsTruthy (.num 3) :=
  parse_serialize_roundtrip (createProvenanceDocument "c".toList "t".toList)
    (.num 3) (by decide) rfl rfl

/-- Counterexample to C7 as frozen: a parsed value whose three required
fields are all **present** — but whose `version` is the empty string — is
rejected by `parse`, while the claim says `parse` throws exactly when a
required field is absent. -/
theorem parse_falsy_version_counterexample :
    (parse wJsonFalsyVersion).isOk = false ∧
    (jsLookup [("version".toList, Json.str []),
               ("metadata".toList, Json.obj []),
               ("sessions".toList, Json.arr [])] "version".toList).isSome = true ∧
    (jsLookup [("version".toList, Json.str []),
               ("metadata".toList, Json.obj []),
               ("sessions".toList, Json.arr [])] "metadata".toList).isSome = true ∧
    (jsLookup [("version".toList, Json.str []),
               ("metadata".toList, Json.obj []),
               ("sessions".toList, Json.arr [])] "sessions".toList).isSome = true :=
  ⟨rfl, rfl, rfl, rfl⟩

/-! ## C9 — statistics counting -/

/-- The five event tags are pairwise distinct (used to split counters). -/
theorem ins_ne_del : ¬ EventType.INSERT = EventType.DELETE := by decide

/-- `insert` and `paste` tags differ. -/
theorem ins_ne_paste : ¬ EventType.INSERT = EventType.PASTE := by decide

/-- `delete` and `insert` tags differ. -/
theorem del_ne_ins : ¬ EventType.DELETE = EventType.INSERT := by decide

/-- `delete` and `paste` tags differ. -/
theorem del_ne_paste : ¬ EventType.DELETE = EventType.PASTE := by decide

/-- `paste` and `insert` tags differ. -/
theorem paste_ne_ins : ¬ EventType.PASTE = EventType.INSERT := by decide

/-- `paste` and `delete` tags differ. -/
theorem paste_ne_del : ¬ EventType.PASTE = EventType.DELETE := by decide

/-- Every event bumps `totalEvents` by one, markers included. -/
theorem statEvent_te (a : StatAcc) (e : Event) : (statEvent a e).te = a.te + 1 := by
  unfold statEvent
  split_ifs <;> rfl

/-- `insertEvents` counts exactly the `insert` events. -/
theorem statEvent_ie (a : StatAcc) (e : Event) :
    (statEvent a e).ie = a.ie + (if e.type = EventType.INSERT then 1 else 0) := by
  unfold statEvent
  split_ifs <;> simp

/-- `deleteEvents` counts exactly the `delete` events. -/
theorem statEvent_de (a : StatAcc) (e : Event) :
    (statEvent a e).de = a.de + (if e.type = EventType.DELETE then 1 else 0) := by
  unfold statEvent
  split_ifs with h1 h2 <;> simp_all [ins_ne_del, del_ne_ins]

/-- `pasteEvents` counts exactly the `paste` events. -/
theorem statEvent_pe (a : StatAcc) (e : Event) :
    (statEvent a e).pe = a.pe + (if e.type = EventType.PASTE then 1 else 0) := by
  unfold statEvent
  split_ifs with h1 h2 h3 <;> simp_all [ins_ne_paste, del_ne_paste, paste_ne_ins, paste_ne_del]

/-- The single pass over one event list, characterized: `totalEvents` grows
by the list length and each per-type counter by the number of events of
that type. -/
theorem statEvents_foldl (events : List Event) (a : StatAcc) :
    ((events.foldl statEvent a).te = a.te + events.length) ∧
    ((events.foldl statEvent a).ie
      = a.ie + events.countP (fun e => decide (e.type = EventType.INSERT))) ∧
    ((events.foldl statEvent a).de
      = a.de + events.countP (fun e => decide (e.type = EventType.DELETE))) ∧
    ((events.foldl statEvent a).pe
      = a.pe + events.countP (fun e => decide (e.type = EventType.PASTE))) := by
  induction events generalizing a with
  | nil => simp
  | cons e rest ih =>
      obtain ⟨h1, h2, h3, h4⟩ := ih (statEvent a e)
      refine ⟨?_, ?_, ?_, ?_⟩
      · rw [List.foldl_cons, h1, statEvent_te, List.length_cons]
        omega
      · rw [List.foldl_cons, h2, statEvent_ie, List.countP_cons]
        by_cases hI : e.type = EventType.INSERT
        · simp [hI]
          omega
        · simp [hI]
      · rw [List.foldl_cons, h3, statEvent_de, List.countP_cons]
        by_cases hD : e.type = EventType.DELETE
        · simp [hD]
          omega
        · simp [hD]
      · rw [List.foldl_cons, h4, statEvent_pe, List.countP_cons]
        by_cases hP : e.type = EventType.PASTE
        · simp [hP]
          omega
        · simp [hP]

/-- The pass over all sessions, characterized by sums over sessions. -/
theorem statSessions_foldl (ss : List Session) (a : StatAcc) :
    ((ss.foldl (fun b s => s.events.foldl statEvent b) a).te
      = a.te + (ss.map (fun s => s.events.length)).sum) ∧
    ((ss.foldl (fun b s => s.events.foldl statEvent b) a).ie
      = a.ie + (ss.map (fun s =>
          s.events.countP (fun e => decide (e.type = EventType.INSERT)))).sum) ∧
    ((ss.foldl (fun b s => s.events.foldl statEvent b) a).de
      = a.de + (ss.map (fun s =>
          s.events.countP (fun e => decide (e.type = EventType.DELETE)))).sum) ∧
    ((ss.foldl (fun b s => s.events.foldl statEvent b) a).pe
      = a.pe + (ss.map (fun s =>
          s.events.countP (fun e => decide (e.type = EventType.PASTE)))).sum) := by
  induction ss generalizing a with
  | nil => simp
  | cons s rest ih =>
      obtain ⟨h1, h2, h3, h4⟩ := ih (s.events.foldl statEvent a)
      obtain ⟨g1, g2, g3, g4⟩ := statEvents_foldl s.events a
      refine ⟨?_, ?_, ?_, ?_⟩
      · rw [List.foldl_cons, h1, g1, List.map_cons, List.sum_cons]
        omega
      · rw [List.foldl_cons, h2, g2, List.map_cons, List.sum_cons]
        omega
      · rw [List.foldl_cons, h3, g3, List.map_cons, List.sum_cons]
        omega
      · rw [List.foldl_cons, h4, g4, List.map_cons, List.sum_cons]
        omega

/-- At most one of the three type predicates holds per event, so the three
per-type counts together never exceed the event count. -/
theorem countP_three_le (events : List Event) :
    events.countP (fun e => decide (e.type = EventType.INSERT))
      + events.countP (fun e => decide (e.type = EventType.DELETE))
      + events.countP (fun e => decide (e.type = EventType.PASTE))
      ≤ events.length := by
  induction events with
  | nil => simp
  | cons e rest ih =>
      rw [List.countP_cons, List.countP_cons, List.countP_cons, List.length_cons]
      by_cases hI : e.type = EventType.INSERT
      · have hD : ¬ e.type = EventType.DELETE := by rw [hI]; exact ins_ne_del
        have hP : ¬ e.type = EventType.PASTE := by rw [hI]; exact ins_ne_paste
        simp [hI, hD, hP, ins_ne_del, ins_ne_paste]
        omega
      · by_cases hD : e.type = EventType.DELETE
        · have hP : ¬ e.type = EventType.PASTE := by rw [hD]; exact del_ne_paste
          simp [hI, hD, hP, del_ne_ins, del_ne_paste]
          omega
        · by_cases hP : e.type = EventType.PASTE
          · simp [hI, hD, hP, paste_ne_ins, paste_ne_del]
            omega
          · simp [hI, hD, hP]
            omega

/-- The session-summed form of `countP_three_le`. -/
theorem countP_three_sum_le (ss : List Session) :
    (ss.map (fun s => s.events.countP (fun e => decide (e.type = EventType.INSERT)))).sum
      + (ss.map (fun s => s.events.countP (fun e => decide (e.type = EventType.DELETE)))).sum
      + (ss.map (fun s => s.events.countP (fun e => decide (e.type = EventType.PASTE)))).sum
      ≤ (ss.map (fun s => s.events.length)).sum := by
  induction ss with
  | nil => simp
  | cons s rest ih =>
      simp only [List.map_cons, List.sum_cons]
      have := countP_three_le s.events
      omega

/-- C9: `getStatistics` counts every event of every session toward
`totalEvents` — session markers included — while the per-type counters
count only their types; hence the three edit counters sum to at most
`totalEvents`, and `pasteRatio` divides `pasteEvents` by this
marker-inclusive denominator, with value 0 when `totalEvents = 0`. -/
theorem getStatistics_counts (parseTime : Str → Int) (doc : Document)
    (ss : List Session) (st : Stats)
    (hs : doc.sessions = some ss)
    (hst : getStatistics parseTime doc = some st) :
    st.totalEvents = (ss.map (fun s => s.events.length)).sum ∧
    st.insertEvents = (ss.map (fun s =>
      s.events.countP (fun e => decide (e.type = EventType.INSERT)))).sum ∧
    st.deleteEvents = (ss.map (fun s =>
      s.events.countP (fun e => decide (e.type = EventType.DELETE)))).sum ∧
    st.pasteEvents = (ss.map (fun s =>
      s.events.countP (fun e => decide (e.type = EventType.PASTE)))).sum ∧
    st.insertEvents + st.deleteEvents + st.pasteEvents ≤ st.totalEvents ∧
    Stats.pasteRatio st =
      (if st.totalEvents = 0 then 0
       else (st.pasteEvents : Rat) / (st.totalEvents : Rat)) := by
  unfold getStatistics at hst
  rw [hs] at hst
  dsimp only [] at hst
  injection hst with hval
  subst hval
  obtain ⟨h1, h2, h3, h4⟩ := statSessions_foldl ss
    { te := 0, ie := 0, de := 0, pe := 0, ct := 0, cd := 0, cp := 0 }
  dsimp only []
  rw [h1, h2, h3, h4]
  simp only [Nat.zero_add]
  refine ⟨trivial, trivial, trivial, trivial, countP_three_sum_le ss, ?_⟩
  by_cases h0 : (ss.map (fun s => s.events.length)).sum = 0
  · rw [if_pos h0]
    have hz : ¬ ((ss.map (fun s => s.events.length)).sum > 0) := by omega
    rw [if_neg hz]
  · rw [if_neg h0]
    have hp : (ss.map (fun s => s.events.length)).sum > 0 := by omega
    rw [if_pos hp]

/-! ## Closed witnesses over genuine SHA-256 chains -/

set_option maxHeartbeats 4000000 in
set_option maxRecDepth 100000 in
/-- Closed witness for C2 at a genuine two-event chain: the original chain
verifies, tampering event 1's content from `a` to `b` (hash untouched)
breaks verification exactly at index 1. -/
theorem tamper_detection_witness :
    (verifyHashChain (some ([wEv0, wEv1].set 1 wEv1m)) []).valid = false ∧
    (verifyHashChain (some ([wEv0, wEv1].set 1 wEv1m)) []).brokenAt = some 1 :=
  tamper_detection [wEv0, wEv1] 1 (by decide) wEv1m (by decide) (by decide)
    (by decide) (by decide) (by decide) (by decide)

set_option maxHeartbeats 4000000 in
set_option maxRecDepth 100000 in
/-- Closed witness for C3's amended statement: concrete document and two
concrete non-empty verifying chains whose concatenation breaks at the
junction. -/
theorem session_isolation_witness :
    verifyProvenanceFile wDocS1 = some
      { valid := (([{ id := "s1".toList, startTime := [], endTime := [],
                      baseContent := [], events := [] }] : List Session)).all
          (fun s => (verifyHashChain (some s.events) []).valid),
        results := (([{ id := "s1".toList, startTime := [], endTime := [],
                        baseContent := [], events := [] }] : List Session)).map (fun s =>
          { sessionId := s.id,
            valid := (verifyHashChain (some s.events) []).valid,
            brokenAt := (verifyHashChain (some s.events) []).brokenAt,
            message := (verifyHashChain (some s.events) []).message,
            lastHash := (verifyHashChain (some s.events) []).lastHash }) } ∧
    (verifyHashChain (some ([wEv0] ++ wEv0 :: [])) []).valid = false ∧
    (verifyHashChain (some ([wEv0] ++ wEv0 :: [])) []).brokenAt = some [wEv0].length :=
  session_isolation wDocS1
    [{ id := "s1".toList, startTime := [], endTime := [], baseContent := [], events := [] }]
    rfl [wEv0] [] wEv0 (by decide) (by decide) (by decide) (by decide)

set_option maxHeartbeats 4000000 in
set_option maxRecDepth 100000 in
/-- Counterexample to C3 as frozen: with the **first** session empty and
the second non-empty, both verify independently from the empty hash, yet
the concatenation of the two event arrays also verifies — it does not
fail, contradicting the claim's unconditional consequence. -/
theorem session_isolation_counterexample :
    (verifyHashChain (some (([] : List Event) ++ [wEv0])) []).valid = true ∧
    (verifyHashChain (some ([] : List Event)) []).valid = true ∧
    (verifyHashChain (some [wEv0]) []).valid = true ∧
    ([wEv0] : List Event) ≠ [] :=
  ⟨by decide, by decide, by decide, by decide⟩

/-- `getStatistics` on the statistics-scenario document evaluates to
exactly `wStats` (the rational `pasteRatio` is settled by `norm_num`
since `Rat` normalization does not reduce definitionally). -/
theorem getStatistics_wStatsDoc : getStatistics (fun _ => 0) wStatsDoc = some wStats := by
  show some _ = some wStats
  refine congrArg some ?_
  unfold wStats
  refine Stats.mk.injEq .. |>.mpr ?_
  refine ⟨by decide, by decide, by decide, by decide, by decide, by decide, by decide,
    by decide, by decide, by decide, ?_, by decide⟩
  have hF : (List.foldl (fun (a : StatAcc) (s : Session) => List.foldl statEvent a s.events)
      ({ te := 0, ie := 0, de := 0, pe := 0, ct := 0, cd := 0, cp := 0 } : StatAcc)
      [{ id := "s".toList, startTime := [], endTime := [], baseContent := [],
         events :=
           [{ type := EventType.INSERT, timestamp := 0, position := some 0,
              content := some "H".toList, hash := [] },
            { type := EventType.INSERT, timestamp := 1, position := some 1,
              content := some "i".toList, hash := [] },
            { type := EventType.DELETE, timestamp := 2, position := some 1,
              content := some "i".toList, hash := [] },
            { type := EventType.PASTE, timestamp := 3, position := some 1,
              content := some "ello".toList, hash := [] }] }])
      = ({ te := 4, ie := 2, de := 1, pe := 1, ct := 2, cd := 1, cp := 4 } : StatAcc) := by decide
  rw [hF]
  norm_num

/-- Closed witness for C9 on the specification's statistics scenario:
`getStatistics` yields exactly `wStats`, whose edit counters sum below the
marker-inclusive `totalEvents` and whose `pasteRatio` is
`pasteEvents / totalEvents`. -/
theorem getStatistics_counts_witness :
    getStatistics (fun _ => 0) wStatsDoc = some wStats ∧
    wStats.insertEvents + wStats.deleteEvents + wStats.pasteEvents ≤ wStats.totalEvents ∧
    Stats.pasteRatio wStats =
      (if wStats.totalEvents = 0 then 0
       else (wStats.pasteEvents : Rat) / (wStats.totalEvents : Rat)) :=
  ⟨getStatistics_wStatsDoc,
   (getStatistics_counts (fun _ => 0) wStatsDoc _ wStats rfl getStatistics_wStatsDoc).2.2.2.2.1,
   (getStatistics_counts (fun _ => 0) wStatsDoc _ wStats rfl getStatistics_wStatsDoc).2.2.2.2.2⟩
